import Mathlib

/-! Verification of the `range_check` crate (ogham/rust-range-check).

The crate is embedded shallowly:

* `Bound`/`Bounds` mirror `std::ops::Bound` and the crate's `Bounds` struct
  (`src/bounds.rs`).
* A Rust `PartialOrd` instance is modelled by a comparison function
  `pcmp : α → α → Option Ordering` (`partial_cmp`); the operators `<`, `<=`,
  `>`, `>=` are derived from it exactly as Rust derives them.  The documented
  `PartialOrd` duality requirement (`a < b` iff `b > a`) is the explicit
  predicate `DualityLaw`.
* The `Contains` trait impls for `Range`, `RangeFrom`, `RangeTo`
  (`src/lib.rs`) become `rangeContains`, `rangeFromContains`,
  `rangeToContains`; the `Within` trait becomes `is_within`.
* `check_range` (`src/check.rs`) is generic over `R: RangeBounds<T>`; a range
  is represented by its extracted bound pair, and the membership test it
  calls is the standard library's default `RangeBounds::contains`,
  embedded as `rangeBoundsContains`.
* The `Display` impls (`src/bounds.rs`, `src/check.rs`) become string
  functions parameterised by a debug-rendering function for the element type.
-/

namespace RangeCheck

/-- Rust `std::ops::Bound`: an endpoint of a range. -/
inductive Bound (α : Type) where
  | unbounded : Bound α
  | included (val : α) : Bound α
  | excluded (val : α) : Bound α
deriving DecidableEq, Repr

/-- The crate's `Bounds` struct (`src/bounds.rs`): the two bounds
destructured from a range value. -/
structure Bounds (α : Type) where
  lower : Bound α
  upper : Bound α
deriving DecidableEq, Repr

/-- Rust `a < b` for a `PartialOrd` type given by `pcmp` (= `partial_cmp`):
true exactly when `pcmp a b = some Less`. -/
def rustLt (pcmp : α → α → Option Ordering) (a b : α) : Bool :=
  match pcmp a b with
  | some .lt => true
  | _ => false

/-- Rust `a <= b`: true exactly when `pcmp a b` is `some Less` or `some Equal`. -/
def rustLe (pcmp : α → α → Option Ordering) (a b : α) : Bool :=
  match pcmp a b with
  | some .lt => true
  | some .eq => true
  | _ => false

/-- Rust `a > b`: true exactly when `pcmp a b = some Greater`. -/
def rustGt (pcmp : α → α → Option Ordering) (a b : α) : Bool :=
  match pcmp a b with
  | some .gt => true
  | _ => false

/-- Rust `a >= b`: true exactly when `pcmp a b` is `some Greater` or `some Equal`. -/
def rustGe (pcmp : α → α → Option Ordering) (a b : α) : Bool :=
  match pcmp a b with
  | some .gt => true
  | some .eq => true
  | _ => false

/-- The documented duality requirement of Rust's `PartialOrd`:
`partial_cmp` of swapped arguments is the swapped ordering. -/
def DualityLaw (pcmp : α → α → Option Ordering) : Prop :=
  ∀ a b, pcmp b a = (pcmp a b).map Ordering.swap

/-- The `impl Contains<T> for Range<T>` (`src/lib.rs`):
`(value >= &self.start) && (value < &self.end)` for the range `start..stop`. -/
def rangeContains (pcmp : α → α → Option Ordering) (start stop v : α) : Bool :=
  rustGe pcmp v start && rustLt pcmp v stop

/-- The `impl Contains<T> for RangeFrom<T>` (`src/lib.rs`):
`value >= &self.start` for the range `start..`. -/
def rangeFromContains (pcmp : α → α → Option Ordering) (start v : α) : Bool :=
  rustGe pcmp v start

/-- The `impl Contains<T> for RangeTo<T>` (`src/lib.rs`):
`value < &self.end` for the range `..stop`. -/
def rangeToContains (pcmp : α → α → Option Ordering) (stop v : α) : Bool :=
  rustLt pcmp v stop

/-- The three range types carrying a `Contains` impl in `src/lib.rs`. -/
inductive ContainsRange (α : Type) where
  | range (start stop : α) : ContainsRange α
  | rangeFrom (start : α) : ContainsRange α
  | rangeTo (stop : α) : ContainsRange α
deriving DecidableEq, Repr

/-- The `Contains::contains` method, dispatched over the three impls of
`src/lib.rs`. -/
def contains (pcmp : α → α → Option Ordering) :
    ContainsRange α → α → Bool
  | .range a b, v => rangeContains pcmp a b v
  | .rangeFrom a, v => rangeFromContains pcmp a v
  | .rangeTo b, v => rangeToContains pcmp b v

/-- The `Within` trait (`src/lib.rs`): `is_within` calls
`range.borrow().contains(self)`. -/
def is_within (pcmp : α → α → Option Ordering)
    (v : α) (range : ContainsRange α) : Bool :=
  contains pcmp range v

/-- The standard library's default `RangeBounds::contains`, which is the
membership test `check_range` (`src/check.rs`) invokes; a range is
represented by its extracted `(start_bound, end_bound)` pair. -/
def rangeBoundsContains (pcmp : α → α → Option Ordering)
    (r : Bounds α) (item : α) : Bool :=
  (match r.lower with
   | .included s => rustLe pcmp s item
   | .excluded s => rustLt pcmp s item
   | .unbounded => true) &&
  (match r.upper with
   | .included e => rustLe pcmp item e
   | .excluded e => rustLt pcmp item e
   | .unbounded => true)

/-- The function `copy_bound` (`src/bounds.rs`): turns `Bound<&T>` into `Bound<T>` by
copying, preserving the constructor. -/
def copy_bound : Bound α → Bound α
  | .unbounded => .unbounded
  | .included n => .included n
  | .excluded n => .excluded n

/-- The struct `OutOfRangeError` (`src/check.rs`): the error thrown when a
`check_range` fails. -/
structure OutOfRangeError (α : Type) where
  allowed_range : Bounds α
  outside_value : α
deriving DecidableEq, Repr

/-- The method `check_range` (`src/check.rs`): re-returns the value when the range
contains it, otherwise packages the value and the range's bounds into an
`OutOfRangeError`. -/
def check_range (pcmp : α → α → Option Ordering)
    (v : α) (range : Bounds α) : Except (OutOfRangeError α) α :=
  if rangeBoundsContains pcmp range v then
    .ok v
  else
    .error { allowed_range := { lower := copy_bound range.lower,
                                upper := copy_bound range.upper },
             outside_value := v }

/-- The `start_bound`/`end_bound` pair of `std::ops::Range` `a..b`. -/
def boundsOfRange (a b : α) : Bounds α :=
  { lower := .included a, upper := .excluded b }

/-- The `start_bound`/`end_bound` pair of `std::ops::RangeInclusive` `a..=b`
(not yet exhausted). -/
def boundsOfRangeInclusive (a b : α) : Bounds α :=
  { lower := .included a, upper := .included b }

/-- The `start_bound`/`end_bound` pair of `std::ops::RangeFrom` `a..`. -/
def boundsOfRangeFrom (a : α) : Bounds α :=
  { lower := .included a, upper := .unbounded }

/-- The `start_bound`/`end_bound` pair of `std::ops::RangeTo` `..b`. -/
def boundsOfRangeTo (b : α) : Bounds α :=
  { lower := .unbounded, upper := .excluded b }

/-- The `start_bound`/`end_bound` pair of `std::ops::RangeToInclusive` `..=b`. -/
def boundsOfRangeToInclusive (b : α) : Bounds α :=
  { lower := .unbounded, upper := .included b }

/-- The `start_bound`/`end_bound` pair of `std::ops::RangeFull` `..`. -/
def boundsOfRangeFull : Bounds α :=
  { lower := .unbounded, upper := .unbounded }

/-- The method `Bounds::convert` (`src/bounds.rs`): element-type conversion, the
`From`-conversion modelled by an arbitrary function `f`. -/
def Bounds.convert (f : α → β) (b : Bounds α) : Bounds β :=
  { lower :=
      match b.lower with
      | .included t => .included (f t)
      | .excluded t => .excluded (f t)
      | .unbounded => .unbounded,
    upper :=
      match b.upper with
      | .included t => .included (f t)
      | .excluded t => .excluded (f t)
      | .unbounded => .unbounded }

/-- The method `OutOfRangeError::generify` (`src/check.rs`): converts the bounds with
`Bounds::convert` and the outside value with `into`. -/
def OutOfRangeError.generify (f : α → β) (e : OutOfRangeError α) :
    OutOfRangeError β :=
  { allowed_range := e.allowed_range.convert f,
    outside_value := f e.outside_value }

/-- The constructor tag of a `Bound`, used to state tag preservation. -/
inductive BoundTag where
  | unb : BoundTag
  | inc : BoundTag
  | exc : BoundTag
deriving DecidableEq, Repr

/-- The tag of a `Bound` value. -/
def btag : Bound α → BoundTag
  | .unbounded => .unb
  | .included _ => .inc
  | .excluded _ => .exc

/-- The payload of a `Bound` value, when present. -/
def bval : Bound α → Option α
  | .unbounded => none
  | .included n => some n
  | .excluded n => some n

/-- The `impl Display for Bounds` (`src/bounds.rs`), with `d` standing for the
`Debug` rendering of the element type: an `Included` lower edge prints the
value, an `Excluded` lower edge prints the value followed by a spurious
equals sign, then `..`, then the upper edge (`=` plus value when
`Included`, the bare value when `Excluded`). -/
def displayBounds (d : α → String) (b : Bounds α) : String :=
  (match b.lower with
   | .included n => d n
   | .excluded n => d n ++ "="
   | .unbounded => "") ++
  ".." ++
  (match b.upper with
   | .included n => "=" ++ d n
   | .excluded n => d n
   | .unbounded => "")

/-- The `impl Display for OutOfRangeError` (`src/check.rs`):
`value ({:?}) outside of range ({})`. -/
def displayOutOfRangeError (d : α → String) (e : OutOfRangeError α) : String :=
  "value (" ++ d e.outside_value ++ ") outside of range (" ++
    displayBounds d e.allowed_range ++ ")"

/-- The `partial_cmp` of a Rust integer type, modelled on `ℤ`: the total order
comparison, always defined. -/
def intPcmp (a b : ℤ) : Option Ordering :=
  some (compare a b)

/-- The `Debug` rendering of a Rust integer, modelled on `ℤ`: plain decimal. -/
def intDebug (n : ℤ) : String :=
  toString n

/-- A `partial_cmp` on `Fin 3` in which distinct elements are incomparable:
used to exercise the partial-order cases. -/
def flatPcmp (a b : Fin 3) : Option Ordering :=
  if a = b then some .eq else none

/-- Under the `PartialOrd` duality requirement, Rust's `a <= b` agrees with
`b >= a`. -/
theorem rustLe_eq_rustGe (pcmp : α → α → Option Ordering)
    (hd : DualityLaw pcmp) (a b : α) :
    rustLe pcmp a b = rustGe pcmp b a := by
  unfold rustLe rustGe
  rw [hd a b]
  cases pcmp a b with
  | none => rfl
  | some o => cases o <;> rfl

/-- Under the `PartialOrd` duality requirement, Rust's `a < b` agrees with
`b > a`. -/
theorem rustLt_eq_rustGt (pcmp : α → α → Option Ordering)
    (hd : DualityLaw pcmp) (a b : α) :
    rustLt pcmp a b = rustGt pcmp b a := by
  unfold rustLt rustGt
  rw [hd a b]
  cases pcmp a b with
  | none => rfl
  | some o => cases o <;> rfl

/-- The integer `partial_cmp` satisfies the duality requirement. -/
theorem intPcmp_duality : DualityLaw intPcmp := by
  intro a b
  show some (compare b a) = (some (compare a b)).map Ordering.swap
  simp only [Option.map_some']
  exact congrArg some (Batteries.OrientedCmp.symm a b).symm

/-- The flat incomparable `partial_cmp` satisfies the duality requirement. -/
theorem flatPcmp_duality : DualityLaw flatPcmp := by
  show ∀ a b : Fin 3, flatPcmp b a = (flatPcmp a b).map Ordering.swap
  decide

/-- Claim C1: for every partially ordered value type and all bounds `a`, `b`
and candidate `v`, the containment test used by the crate implements the six
interval forms exactly: `[a,b)` is `v >= a && v < b` (both through the
`Contains` impl for `Range` and through the `RangeBounds`-based test),
`[a,b]` is `v >= a && v <= b`, `(a,b)` is `v > a && v < b`, `[a,inf)` is
`v >= a`, `(-inf,b)` is `v < b`, `(-inf,b]` is `v <= b`, and the fully
unbounded interval contains every value. -/
theorem contains_implements_interval_forms (pcmp : α → α → Option Ordering)
    (hd : DualityLaw pcmp) (a b v : α) :
    rangeContains pcmp a b v = (rustGe pcmp v a && rustLt pcmp v b)
    ∧ rangeBoundsContains pcmp (boundsOfRange a b) v
        = (rustGe pcmp v a && rustLt pcmp v b)
    ∧ rangeBoundsContains pcmp (boundsOfRangeInclusive a b) v
        = (rustGe pcmp v a && rustLe pcmp v b)
    ∧ rangeBoundsContains pcmp { lower := .excluded a, upper := .excluded b } v
        = (rustGt pcmp v a && rustLt pcmp v b)
    ∧ rangeFromContains pcmp a v = rustGe pcmp v a
    ∧ rangeBoundsContains pcmp (boundsOfRangeFrom a) v = rustGe pcmp v a
    ∧ rangeToContains pcmp b v = rustLt pcmp v b
    ∧ rangeBoundsContains pcmp (boundsOfRangeTo b) v = rustLt pcmp v b
    ∧ rangeBoundsContains pcmp (boundsOfRangeToInclusive b) v = rustLe pcmp v b
    ∧ rangeBoundsContains pcmp (boundsOfRangeFull) v = true := by
  have hle := rustLe_eq_rustGe pcmp hd a v
  have hlt := rustLt_eq_rustGt pcmp hd a v
  simp [rangeContains, rangeFromContains, rangeToContains,
    rangeBoundsContains, boundsOfRange, boundsOfRangeInclusive,
    boundsOfRangeFrom, boundsOfRangeTo, boundsOfRangeToInclusive,
    boundsOfRangeFull, hle, hlt]

/-- Witness for C1 at the integer instance with `a = 3`, `b = 7`, `v = 5`. -/
theorem contains_implements_interval_forms_witness :
    rangeContains intPcmp 3 7 5 = (rustGe intPcmp 5 3 && rustLt intPcmp 5 7)
    ∧ rangeBoundsContains intPcmp (boundsOfRange 3 7) 5
        = (rustGe intPcmp 5 3 && rustLt intPcmp 5 7)
    ∧ rangeBoundsContains intPcmp (boundsOfRangeInclusive 3 7) 5
        = (rustGe intPcmp 5 3 && rustLe intPcmp 5 7)
    ∧ rangeBoundsContains intPcmp { lower := .excluded 3, upper := .excluded 7 } 5
        = (rustGt intPcmp 5 3 && rustLt intPcmp 5 7)
    ∧ rangeFromContains intPcmp 3 5 = rustGe intPcmp 5 3
    ∧ rangeBoundsContains intPcmp (boundsOfRangeFrom 3) 5 = rustGe intPcmp 5 3
    ∧ rangeToContains intPcmp 7 5 = rustLt intPcmp 5 7
    ∧ rangeBoundsContains intPcmp (boundsOfRangeTo 7) 5 = rustLt intPcmp 5 7
    ∧ rangeBoundsContains intPcmp (boundsOfRangeToInclusive 7) 5
        = rustLe intPcmp 5 7
    ∧ rangeBoundsContains intPcmp (boundsOfRangeFull) 5 = true :=
  contains_implements_interval_forms intPcmp intPcmp_duality 3 7 5

/-- Claim C5: the two public membership forms agree: `contains(I, v)`
returns the same boolean as `is_within(v, I)`, for every interval `I` with
a `Contains` impl and every value `v`. -/
theorem contains_eq_is_within (pcmp : α → α → Option Ordering)
    (r : ContainsRange α) (v : α) :
    contains pcmp r v = is_within pcmp v r :=
  rfl

/-- Claim C9: an empty closed-open range contains nothing: `contains(a..a, v)`
is false for every bound `a` and candidate `v` (both through the `Contains`
impl and through the `RangeBounds`-based test used by `check_range`), and
hence `check_range(v, a..a)` always returns an `Err`. -/
theorem empty_range_rejects_everything (pcmp : α → α → Option Ordering)
    (hd : DualityLaw pcmp) (a v : α) :
    contains pcmp (.range a a) v = false
    ∧ rangeBoundsContains pcmp (boundsOfRange a a) v = false
    ∧ ∃ e, check_range pcmp v (boundsOfRange a a) = .error e := by
  have h1 : contains pcmp (.range a a) v = false := by
    show rangeContains pcmp a a v = false
    unfold rangeContains rustGe rustLt
    cases h : pcmp v a with
    | none => simp [h]
    | some o => cases o <;> simp [h]
  have h2 : rangeBoundsContains pcmp (boundsOfRange a a) v = false := by
    have hle := rustLe_eq_rustGe pcmp hd a v
    simp only [rangeBoundsContains, boundsOfRange, hle]
    unfold rustGe rustLt
    cases h : pcmp v a with
    | none => simp [h]
    | some o => cases o <;> simp [h]
  refine ⟨h1, h2,
    ⟨{ allowed_range := { lower := copy_bound (boundsOfRange a a).lower,
                          upper := copy_bound (boundsOfRange a a).upper },
       outside_value := v }, ?_⟩⟩
  unfold check_range
  rw [h2]
  rfl

/-- Witness for C9 at the integer instance with `a = 4`, `v = 4`. -/
theorem empty_range_rejects_everything_witness :
    contains intPcmp (.range 4 4) 4 = false
    ∧ rangeBoundsContains intPcmp (boundsOfRange 4 4) 4 = false
    ∧ ∃ e, check_range intPcmp 4 (boundsOfRange 4 4) = .error e :=
  empty_range_rejects_everything intPcmp intPcmp_duality 4 4

/-- Helper: when the membership test fails, `check_range` returns exactly
the error built from the value and the copied bounds. -/
theorem check_range_error_of_false (pcmp : α → α → Option Ordering) (v : α)
    (r : Bounds α) (h : rangeBoundsContains pcmp r v = false) :
    check_range pcmp v r =
      .error { allowed_range := { lower := copy_bound r.lower,
                                  upper := copy_bound r.upper },
               outside_value := v } := by
  unfold check_range
  rw [h]
  rfl

/-- Helper: `copy_bound` is the identity on owned bounds. -/
theorem copy_bound_id (x : Bound α) : copy_bound x = x := by
  cases x <;> rfl

/-- Claim C2: `check_range(v, R)` returns `Ok` holding exactly the original
value `v` if and only if the containment test accepts `v` in `R`; whenever
`v` is not contained it returns an `Err`, so a contained value is never
wrapped in an error and a rejected value always produces an error. -/
theorem check_range_ok_iff_contains (pcmp : α → α → Option Ordering)
    (v : α) (r : Bounds α) :
    (check_range pcmp v r = .ok v ↔ rangeBoundsContains pcmp r v = true)
    ∧ (∀ x, check_range pcmp v r = .ok x → x = v)
    ∧ ((∃ e, check_range pcmp v r = .error e)
        ↔ rangeBoundsContains pcmp r v = false) := by
  cases h : rangeBoundsContains pcmp r v with
  | true =>
    have hok : check_range pcmp v r = .ok v := by
      unfold check_range
      rw [h]
      rfl
    refine ⟨by simp [hok, h], fun x hx => ?_, by simp [hok, h]⟩
    rw [hok] at hx
    exact (Except.ok.inj hx).symm
  | false =>
    have herr := check_range_error_of_false pcmp v r h
    refine ⟨by simp [herr, h], fun x hx => ?_, by simp [herr, h]⟩
    rw [herr] at hx
    exact absurd hx (by simp)

/-- Witness for C2 at the integer instance: `5.check_range(0..10)` is `Ok(5)`. -/
theorem check_range_ok_iff_contains_witness :
    check_range intPcmp 5 (boundsOfRange 0 10) = .ok 5 :=
  (check_range_ok_iff_contains intPcmp 5 (boundsOfRange 0 10)).1.mpr (by decide)

/-- Claim C3: when `check_range(v, R)` fails, the error's `outside_value`
equals `v` and its `allowed_range` equals the bounds extracted from `R`
(via `copy_bound`, which preserves the bound exactly); the extraction tags
each edge faithfully: `a..b` gives `Included(a)`/`Excluded(b)`, and a
missing side is `Unbounded`. -/
theorem check_range_error_reports_value_and_bounds
    (pcmp : α → α → Option Ordering) (v a b : α) (r : Bounds α)
    (h : rangeBoundsContains pcmp r v = false) :
    (∃ e, check_range pcmp v r = .error e
      ∧ e.outside_value = v
      ∧ e.allowed_range = r)
    ∧ boundsOfRange a b = { lower := .included a, upper := .excluded b }
    ∧ boundsOfRangeFrom a = { lower := .included a, upper := .unbounded }
    ∧ boundsOfRangeTo b = { lower := .unbounded, upper := .excluded b }
    ∧ (∀ x : Bound α, copy_bound x = x) := by
  refine ⟨⟨{ allowed_range := { lower := copy_bound r.lower,
                                upper := copy_bound r.upper },
             outside_value := v },
           check_range_error_of_false pcmp v r h, rfl, ?_⟩,
          rfl, rfl, rfl, copy_bound_id⟩
  show Bounds.mk (copy_bound r.lower) (copy_bound r.upper) = r
  rw [copy_bound_id, copy_bound_id]

/-- Witness for C3 at the integer instance: `13.check_range(0..10)` fails
with `outside_value = 13` and the faithful bounds of `0..10`. -/
theorem check_range_error_reports_value_and_bounds_witness :
    ∃ e, check_range intPcmp 13 (boundsOfRange 0 10) = .error e
      ∧ e.outside_value = 13
      ∧ e.allowed_range = boundsOfRange 0 10 :=
  (check_range_error_reports_value_and_bounds intPcmp 13 0 10
    (boundsOfRange 0 10) (by decide)).1

/-- Claim C4: `generify` (via `Bounds::convert`) is lossless and
tag-preserving: the outside value is the conversion of the original, and
each edge of `allowed_range` keeps its exact tag with only the contained
value converted. -/
theorem generify_lossless_tag_preserving (f : α → β) (e : OutOfRangeError α) :
    (e.generify f).outside_value = f e.outside_value
    ∧ btag (e.generify f).allowed_range.lower = btag e.allowed_range.lower
    ∧ btag (e.generify f).allowed_range.upper = btag e.allowed_range.upper
    ∧ bval (e.generify f).allowed_range.lower
        = (bval e.allowed_range.lower).map f
    ∧ bval (e.generify f).allowed_range.upper
        = (bval e.allowed_range.upper).map f := by
  obtain ⟨⟨lo, up⟩, ov⟩ := e
  refine ⟨rfl, ?_, ?_, ?_, ?_⟩ <;> cases lo <;> cases up <;> rfl

/-- Claim C6: over a partial ordering, whenever a comparison between the
candidate and a bound is indeterminate (`partial_cmp` returns `None`), the
containment test returns false — for every `Contains` impl and for the
`RangeBounds`-based test — and `check_range` consequently errs; the
embedding is a total function, so no panic is possible. -/
theorem indeterminate_comparison_gives_false (pcmp : α → α → Option Ordering)
    (hd : DualityLaw pcmp) (a b v : α) (r : Bounds α) :
    (pcmp v a = none → rangeContains pcmp a b v = false)
    ∧ (pcmp v b = none → rangeContains pcmp a b v = false)
    ∧ (pcmp v a = none → rangeFromContains pcmp a v = false)
    ∧ (pcmp v b = none → rangeToContains pcmp b v = false)
    ∧ (∀ n, bval r.lower = some n → pcmp v n = none →
        rangeBoundsContains pcmp r v = false
        ∧ ∃ e, check_range pcmp v r = .error e)
    ∧ (∀ n, bval r.upper = some n → pcmp v n = none →
        rangeBoundsContains pcmp r v = false
        ∧ ∃ e, check_range pcmp v r = .error e) := by
  have hnone : ∀ x y : α, pcmp x y = none → pcmp y x = none := by
    intro x y hxy
    rw [hd x y, hxy]
    rfl
  have hge : ∀ x y, pcmp x y = none → rustGe pcmp x y = false := by
    intro x y hxy
    unfold rustGe
    rw [hxy]
  have hlt : ∀ x y, pcmp x y = none → rustLt pcmp x y = false := by
    intro x y hxy
    unfold rustLt
    rw [hxy]
  have hle : ∀ x y, pcmp x y = none → rustLe pcmp x y = false := by
    intro x y hxy
    unfold rustLe
    rw [hxy]
  obtain ⟨lo, up⟩ := r
  have hlow : ∀ n, bval lo = some n → pcmp v n = none →
      rangeBoundsContains pcmp ⟨lo, up⟩ v = false := by
    intro n hn hvn
    cases lo with
    | unbounded => exact absurd hn (by simp [bval])
    | included s =>
      have hs : s = n := by simpa [bval] using hn
      have hf : rustLe pcmp s v = false := hle s v (hnone v s (hs ▸ hvn))
      simp [rangeBoundsContains, hf]
    | excluded s =>
      have hs : s = n := by simpa [bval] using hn
      have hf : rustLt pcmp s v = false := hlt s v (hnone v s (hs ▸ hvn))
      simp [rangeBoundsContains, hf]
  have hup : ∀ n, bval up = some n → pcmp v n = none →
      rangeBoundsContains pcmp ⟨lo, up⟩ v = false := by
    intro n hn hvn
    cases up with
    | unbounded => exact absurd hn (by simp [bval])
    | included s =>
      have hs : s = n := by simpa [bval] using hn
      have hf : rustLe pcmp v s = false := hle v s (hs ▸ hvn)
      simp [rangeBoundsContains, hf]
    | excluded s =>
      have hs : s = n := by simpa [bval] using hn
      have hf : rustLt pcmp v s = false := hlt v s (hs ▸ hvn)
      simp [rangeBoundsContains, hf]
  refine ⟨?_, ?_, ?_, ?_, ?_, ?_⟩
  · intro h
    unfold rangeContains
    rw [hge v a h]
    rfl
  · intro h
    unfold rangeContains
    rw [hlt v b h, Bool.and_false]
  · intro h
    exact hge v a h
  · intro h
    exact hlt v b h
  · intro n hn hvn
    exact ⟨hlow n hn hvn, _, check_range_error_of_false pcmp v _ (hlow n hn hvn)⟩
  · intro n hn hvn
    exact ⟨hup n hn hvn, _, check_range_error_of_false pcmp v _ (hup n hn hvn)⟩

/-- Witness for C6 on the flat partial order over `Fin 3`, where `2` and
`0` are incomparable: `contains(0..1, 2)` is false. -/
theorem indeterminate_comparison_gives_false_witness :
    rangeContains flatPcmp 0 1 2 = false :=
  (indeterminate_comparison_gives_false flatPcmp flatPcmp_duality 0 1 2
    { lower := .included 0, upper := .included 1 }).1 (by decide)

/-- Helper: splicing an `=` after `..` is the same as appending `..=`. -/
theorem dotdot_eq_append (s : String) : ".." ++ ("=" ++ s) = "..=" ++ s := by
  rw [← String.append_assoc, show (".." ++ "=" : String) = "..=" from rfl]

/-- Claim C8: `check_range` is a total, pure decision function: it is
defined for every well-typed value and range (the embedding is a total
function, so it terminates and cannot panic), its result is computed solely
from its two arguments, and it is always either `Ok` of the value or the
error built on the failure branch — no other effect or outcome exists. -/
theorem check_range_total_pure (pcmp : α → α → Option Ordering)
    (v : α) (r : Bounds α) :
    check_range pcmp v r = .ok v
    ∨ check_range pcmp v r =
        .error { allowed_range := { lower := copy_bound r.lower,
                                    upper := copy_bound r.upper },
                 outside_value := v } := by
  cases h : rangeBoundsContains pcmp r v with
  | true =>
    left
    unfold check_range
    rw [h]
    rfl
  | false =>
    right
    exact check_range_error_of_false pcmp v r h

/-- Claim C7: the rendering of a check error is `value (` ++ debug of the
outside value ++ `) outside of range (` ++ the bounds in range-literal
style ++ `)`; the bounds render as `lower..upper`, `lower..=upper`,
`lower..`, `..upper`, `..=upper` or `..` matching edge inclusivity, and
`13.check_range(0..10)` displays exactly `value (13) outside of range
(0..10)`.  Rendering is a function of the `Bounds` value, so structurally
equal `Bounds` render identically. -/
theorem display_error_rendering (d : α → String) (a b : α)
    (e : OutOfRangeError α) :
    displayOutOfRangeError d e
      = "value (" ++ d e.outside_value ++ ") outside of range ("
          ++ displayBounds d e.allowed_range ++ ")"
    ∧ displayBounds d (boundsOfRange a b) = d a ++ ".." ++ d b
    ∧ displayBounds d (boundsOfRangeInclusive a b) = d a ++ "..=" ++ d b
    ∧ displayBounds d (boundsOfRangeFrom a) = d a ++ ".."
    ∧ displayBounds d (boundsOfRangeTo b) = ".." ++ d b
    ∧ displayBounds d (boundsOfRangeToInclusive b) = "..=" ++ d b
    ∧ displayBounds d (boundsOfRangeFull : Bounds α) = ".."
    ∧ check_range intPcmp 13 (boundsOfRange 0 10)
        = .error { allowed_range := boundsOfRange 0 10, outside_value := 13 }
    ∧ displayOutOfRangeError intDebug
        { allowed_range := boundsOfRange 0 10, outside_value := 13 }
        = "value (13) outside of range (0..10)" := by
  refine ⟨rfl, rfl, ?_, ?_, rfl, ?_, rfl, ?_, ?_⟩
  · show (d a ++ "..") ++ ("=" ++ d b) = (d a ++ "..=") ++ d b
    rw [String.append_assoc, dotdot_eq_append, ← String.append_assoc]
  · show (d a ++ "..") ++ "" = d a ++ ".."
    rw [String.append_assoc, show (".." ++ "" : String) = ".." from rfl]
  · show ".." ++ ("=" ++ d b) = "..=" ++ d b
    exact dotdot_eq_append (d b)
  · rfl
  · rfl

/-- Claim C10: when the lower edge of a `Bounds` is `Excluded(n)`, the
rendering is the debug form of `n`, then `=`, then `..`, then the upper
edge; in particular lower = `Excluded(5)`, upper = `Excluded(10)` renders
as `5=..10`, which is outside the range-literal styles. -/
theorem excluded_lower_display_form (d : α → String) (n m : α) :
    displayBounds d { lower := .excluded n, upper := .excluded m }
      = d n ++ "=" ++ ".." ++ d m
    ∧ displayBounds d { lower := .excluded n, upper := .unbounded }
      = d n ++ "=" ++ ".."
    ∧ displayBounds d { lower := .excluded n, upper := .included m }
      = d n ++ "=" ++ ".." ++ ("=" ++ d m)
    ∧ displayBounds intDebug { lower := .excluded 5, upper := .excluded 10 }
      = "5=..10" := by
  refine ⟨rfl, ?_, rfl, ?_⟩
  · show ((d n ++ "=") ++ "..") ++ "" = (d n ++ "=") ++ ".."
    rw [String.append_assoc, show (".." ++ "" : String) = ".." from rfl]
  · rfl

end RangeCheck
